import Mathlib

/-!
Verification of the streaming framing and buffer-management layer of the
`audio-mp3` library (Go bindings to LAME/mpg123).

The codec engines (LAME, mpg123) are opaque external collaborators; this
development embeds the pure data path of the Go source: the encoder's
carry-over alignment logic (`enc.go`), output buffer size estimation,
WAV header generation and parsing (`dec-exam.go`), and the decode-to-WAV
orchestration loop (with the engine abstracted as the list of PCM outputs
it produces per input chunk).

Byte streams are modelled as `List Nat` (each element one byte value);
Go's machine integers are modelled as `Nat`/`Int` with explicit wrap-around
(`% 2^32`, `% 2^16`) where the source converts through `uint32`/`uint16`.
-/

namespace Mp3

/-- `SampleBitDepth` constant from `enc.go`: the encoder accepts 16-bit PCM. -/
def SampleBitDepth : Nat := 16

/-- `enc.NumChannels * SampleBitDepth / 8` (enc.go, line 116): the byte width
of one sample frame. -/
def bytesPerSample (numChannels : Nat) : Nat := numChannels * SampleBitDepth / 8

/-- `Encoder.EstimateOutBufBytes` (enc.go, lines 170-180):
`numSamples := inBytes/(NumChannels*SampleBitDepth/8) + 1` and
`int(1.25*float64(numSamples)) + 7200`.  The Go source computes
`1.25*float64(numSamples)` in binary floating point; `1.25` is exactly
representable and the product and its truncation to `int` agree with exact
arithmetic for every `numSamples` below `2^51`, which covers every length a
byte slice can have, so the embedding uses exact division `5 * n / 4`. -/
def EstimateOutBufBytes (numChannels inBytes : Nat) : Nat :=
  let numSamples := inBytes / bytesPerSample numChannels + 1
  5 * numSamples / 4 + 7200

/-- The two caller-error conditions `Encoder.Encode` / `Encoder.Flush`
check before touching the engine (enc.go, lines 103-108 and 149-151). -/
inductive EncError
  | emptyInput
  | outputTooSmall
  deriving DecidableEq, Repr

/-- `Encoder.Encode` (enc.go, lines 99-145), engine abstracted away.

The model returns `(result, newRemainData)`:
* `result = .error e` when one of the two initial checks fails, in which
  case the Go code returns before touching `enc.remainData`, so
  `newRemainData` is the old carry-over unchanged;
* `result = .ok fed` where `fed` is exactly the byte buffer the Go code
  hands to `lame_encode_buffer(_interleaved)`; the engine is invoked iff
  `fed` is nonempty (the `szIn == 0` early return at line 124 skips the
  engine call and returns `(0, nil)`).

The Go code prepends the carry-over (`in = append(enc.remainData, in...)`),
truncates `in` to the longest multiple of `bytesPerSample`, and stores the
cut-off tail as the new carry-over. -/
def Encode (numChannels : Nat) (remainData input : List Nat) (outCap : Nat) :
    Except EncError (List Nat) × List Nat :=
  if input.length = 0 then
    (.error .emptyInput, remainData)
  else if outCap < EstimateOutBufBytes numChannels input.length then
    (.error .outputTooSmall, remainData)
  else
    let combined := remainData ++ input
    let remain := combined.length % bytesPerSample numChannels
    let aligned := combined.length - remain
    (.ok (combined.take aligned), combined.drop aligned)

/-- `Encoder.Flush` (enc.go, lines 147-160), engine abstracted away:
only the output-capacity check is modelled; on success the engine drains
its internal buffer. -/
def Flush (numChannels outCap : Nat) : Except EncError Unit :=
  if outCap < EstimateOutBufBytes numChannels 0 then .error .outputTooSmall
  else .ok ()

/-- A whole session of `Encode` calls: each chunk is passed with an output
buffer of exactly the estimated size (so the capacity check passes).
Returns the list of byte buffers handed to the engine and the final
carry-over. -/
def runEncode (numChannels : Nat) (remainData : List Nat) :
    List (List Nat) → List (List Nat) × List Nat
  | [] => ([], remainData)
  | chunk :: rest =>
    match Encode numChannels remainData chunk
        (EstimateOutBufBytes numChannels chunk.length) with
    | (.ok fed, remain2) =>
      let done := runEncode numChannels remain2 rest
      (fed :: done.1, done.2)
    | (.error _, remain2) =>
      let done := runEncode numChannels remain2 rest
      (done.1, done.2)

/-! ### WAV container reader and writer (src/example/dec-exam.go) -/

/-- `WavHeaderSize` constant. -/
def WavHeaderSize : Nat := 44

/-- The ASCII bytes of `"RIFF"`. -/
def riffTag : List Nat := [82, 73, 70, 70]

/-- The ASCII bytes of `"WAVE"`. -/
def waveTag : List Nat := [87, 65, 86, 69]

/-- The ASCII bytes of `"fmt "`. -/
def fmtTag : List Nat := [102, 109, 116, 32]

/-- The ASCII bytes of `"data"`. -/
def dataTag : List Nat := [100, 97, 116, 97]

/-- `binary.LittleEndian.PutUint16` preceded by Go's `uint16(x)`
conversion: the two bytes, low first; the extraction itself performs the
`mod 2^16` truncation. -/
def le16 (n : Nat) : List Nat := [n % 256, n / 256 % 256]

/-- `binary.LittleEndian.PutUint32` preceded by Go's `uint32(x)`
conversion. -/
def le32 (n : Nat) : List Nat :=
  [n % 256, n / 256 % 256, n / 65536 % 256, n / 16777216 % 256]

/-- `binary.LittleEndian.Uint16` over the first two bytes of a list. -/
def readLE16 (s : List Nat) : Nat := s.getD 0 0 + 256 * s.getD 1 0

/-- `binary.LittleEndian.Uint32` over the first four bytes of a list. -/
def readLE32 (s : List Nat) : Nat :=
  s.getD 0 0 + 256 * s.getD 1 0 + 65536 * s.getD 2 0 +
    16777216 * s.getD 3 0

/-- `io.ReadFull` / `io.CopyN` over a byte-list stream: succeeds iff `n`
bytes are available, consuming exactly `n` of them. -/
def readExact (n : Nat) (s : List Nat) : Option (List Nat × List Nat) :=
  if n ≤ s.length then some (s.take n, s.drop n) else none

/-- `GenerateWavHeader` (dec-exam.go, lines 183-208): the canonical
44-byte little-endian WAV header. -/
def GenerateWavHeader (pcmSize sampleRate numChannels bitsPerSample : Nat) :
    List Nat :=
  let byteRate := sampleRate * numChannels * bitsPerSample / 8
  let blockAlign := numChannels * bitsPerSample / 8
  riffTag ++ le32 (36 + pcmSize) ++ waveTag ++
    fmtTag ++ le32 16 ++ le16 1 ++ le16 numChannels ++ le32 sampleRate ++
    le32 byteRate ++ le16 blockAlign ++ le16 bitsPerSample ++
    dataTag ++ le32 pcmSize

/-- The failure cases of `ParseWavHeader` (dec-exam.go, lines 210-266).
`fuelExhausted` is an artifact of the fuel-based embedding of the chunk
loop; it is proved unreachable for the fuel `ParseWavHeader` supplies. -/
inductive ParseError
  | truncatedRiff
  | invalidRiffWave
  | truncatedChunkHeader
  | invalidFmtSize
  | truncatedFmtChunk
  | unsupportedFormat
  | dataBeforeFmt
  | truncatedSkippedChunk
  | fuelExhausted
  deriving DecidableEq, Repr

/-- The chunk-scanning loop of `ParseWavHeader` (dec-exam.go, lines
226-264).  State: `fmtFound` and the numeric fields already discovered
(Go's named return values, zero-initialized).  Each iteration reads an
8-byte chunk header; a `fmt ` chunk (size at least 16) yields audio
format, channel count, sample rate and bits per sample and fails unless
the audio format is 1 (PCM); a `data` chunk ends the scan (failing if no
`fmt ` was seen); any other chunk is skipped by discarding exactly its
declared length. -/
def parseChunks (fuel : Nat) (fmtFound : Bool) (nc sr bps : Nat)
    (s : List Nat) : Except ParseError (Nat × Nat × Nat × Nat) :=
  match fuel with
  | 0 => .error .fuelExhausted
  | fuel + 1 =>
    match readExact 8 s with
    | none => .error .truncatedChunkHeader
    | some (hdr, rest) =>
      let chunkID := hdr.take 4
      let chunkSize := readLE32 (hdr.drop 4)
      if chunkID = fmtTag then
        if chunkSize < 16 then .error .invalidFmtSize
        else
          match readExact chunkSize rest with
          | none => .error .truncatedFmtChunk
          | some (fmtData, rest2) =>
            let audioFormat := readLE16 fmtData
            let nc2 := readLE16 (fmtData.drop 2)
            let sr2 := readLE32 (fmtData.drop 4)
            let bps2 := readLE16 (fmtData.drop 14)
            if audioFormat ≠ 1 then .error .unsupportedFormat
            else parseChunks fuel true nc2 sr2 bps2 rest2
      else if chunkID = dataTag then
        if fmtFound then .ok (chunkSize, sr, nc, bps)
        else .error .dataBeforeFmt
      else
        match readExact chunkSize rest with
        | none => .error .truncatedSkippedChunk
        | some (_, rest2) => parseChunks fuel fmtFound nc sr bps rest2

/-- `ParseWavHeader` (dec-exam.go, lines 210-266): validate the 12-byte
RIFF/WAVE prologue, then scan chunks.  Returns
`(pcmSize, sampleRate, numChannels, bitsPerSample)`.  The chunk loop
consumes at least 8 bytes per iteration, so `rest.length + 1` fuel always
suffices (proved below). -/
def ParseWavHeader (s : List Nat) :
    Except ParseError (Nat × Nat × Nat × Nat) :=
  match readExact 12 s with
  | none => .error .truncatedRiff
  | some (riffHeader, rest) =>
    if riffHeader.take 4 ≠ riffTag ∨ riffHeader.drop 8 ≠ waveTag then
      .error .invalidRiffWave
    else parseChunks (rest.length + 1) false 0 0 0 rest

/-- Modelled from the spec (claim C8): the stream-well-formedness
condition stated there — the first 12 bytes carry `"RIFF"` at offset 0
and `"WAVE"` at offset 8; every `fmt ` chunk declares at least 16 bytes,
is complete, and carries audio-format code 1; no `data` chunk appears
before a `fmt ` chunk; every skipped chunk body is complete; and a `data`
chunk is eventually reached.  Defined from the claim's wording, to be
compared with `ParseWavHeader`. -/
def specChunksOk (fuel : Nat) (fmtFound : Bool) (s : List Nat) : Bool :=
  match fuel with
  | 0 => false
  | fuel + 1 =>
    match readExact 8 s with
    | none => false
    | some (hdr, rest) =>
      let chunkID := hdr.take 4
      let chunkSize := readLE32 (hdr.drop 4)
      if chunkID = fmtTag then
        decide (16 ≤ chunkSize) &&
          match readExact chunkSize rest with
          | none => false
          | some (fmtData, rest2) =>
            (readLE16 fmtData == 1) && specChunksOk fuel true rest2
      else if chunkID = dataTag then fmtFound
      else
        match readExact chunkSize rest with
        | none => false
        | some (_, rest2) => specChunksOk fuel fmtFound rest2

/-- Modelled from the spec (claim C8): a stream on which the claim says
parsing must succeed. -/
def specWavWellFormed (s : List Nat) : Bool :=
  match readExact 12 s with
  | none => false
  | some (riffHeader, rest) =>
    (riffHeader.take 4 == riffTag) && (riffHeader.drop 8 == waveTag) &&
      specChunksOk (rest.length + 1) false rest

/-! ### Decode-to-WAV orchestrator (src/example/dec-exam.go) -/

/-- A seekable destination (`io.WriteSeeker`): current contents and the
write position. -/
structure WFile where
  data : List Nat
  pos : Nat
  deriving DecidableEq, Repr

/-- A `Write` on a seekable destination: overwrites at the current
position, extending the contents as needed, and advances the position. -/
def fwrite (f : WFile) (bs : List Nat) : WFile :=
  ⟨f.data.take f.pos ++ bs ++ f.data.drop (f.pos + bs.length),
    f.pos + bs.length⟩

/-- The read/decode loop of `DecodeToWav` (dec-exam.go, lines 129-159),
with the mpg123 engine abstracted as the list of PCM byte buffers it
produces for the successive input chunks.  When a chunk produces output
and nothing has been written yet, a 44-byte zero placeholder header is
written before the first payload bytes. -/
def decodeLoop (outputs : List (List Nat)) (f : WFile) (totalBytes : Nat) :
    WFile × Nat :=
  match outputs with
  | [] => (f, totalBytes)
  | out :: rest =>
    if 0 < out.length then
      let f1 := if totalBytes = 0 then
          fwrite f (List.replicate WavHeaderSize 0)
        else f
      let f2 := fwrite f1 out
      decodeLoop rest f2 (totalBytes + out.length)
    else decodeLoop rest f totalBytes

/-- The failure `DecodeToWav` reports when the engine never produced a
byte ("no audio frames decoded"). -/
inductive DecError
  | noAudioDecoded
  deriving DecidableEq, Repr

/-- `DecodeToWav` (dec-exam.go, lines 119-181), engine abstracted as the
per-chunk decoded outputs and the discovered format `(sr, nc, bps)`.
Returns the final destination contents together with the function's
result `(totalBytes + 44, totalSamples, sampleRate)`; after the loop it
fails when zero bytes were decoded, otherwise seeks to the start,
rewrites the real header, and seeks back to the end. -/
def DecodeToWav (outputs : List (List Nat)) (sr nc bps : Nat) :
    WFile × Except DecError (Nat × Nat × Nat) :=
  let loopOut := decodeLoop outputs ⟨[], 0⟩ 0
  let f := loopOut.1
  let totalBytes := loopOut.2
  if totalBytes = 0 then (f, .error .noAudioDecoded)
  else
    let f1 := fwrite ⟨f.data, 0⟩ (GenerateWavHeader totalBytes sr nc bps)
    let f2 : WFile := ⟨f1.data, f1.data.length⟩
    (f2, .ok (totalBytes + WavHeaderSize,
      totalBytes / (nc * bps / 8), sr))

/-! ### Encode-from-WAV configuration effect (src/example/dec-exam.go,
src/enc.go) -/

/-- `EncoderConfig` (enc.go, lines 44-64); all fields are Go `int`s
(`VBRMode` and `MpegMode` are integer types). -/
structure EncoderConfig where
  SampleRate : Int
  NumChannels : Int
  Bitrate : Int
  Quality : Int
  VbrMode : Int
  MpegMode : Int
  deriving DecidableEq, Repr

/-- `populateEncConfig` (enc.go, lines 255-273): defaults zero channel
count, sample rate and bitrate, and clamps an out-of-range quality back
to 2.  The Go function mutates the record behind the caller's pointer;
the model returns the updated record. -/
def populateEncConfig (c : EncoderConfig) : EncoderConfig :=
  let c1 := if c.NumChannels = 0 then { c with NumChannels := 2 } else c
  let c2 := if c1.SampleRate = 0 then { c1 with SampleRate := 44100 }
    else c1
  let c3 := if c2.Bitrate = 0 then { c2 with Bitrate := 128 } else c2
  if c3.Quality < 0 ∨ 9 < c3.Quality then { c3 with Quality := 2 } else c3

/-- The failure cases of `EncodeFromWav` before an encoder session
exists. -/
inductive EncodeFromWavError
  | parseFailed (e : ParseError)
  | unsupportedBitsPerSample (bps : Nat)
  deriving DecidableEq, Repr

/-- The configuration effect and early-exit behavior of `EncodeFromWav`
(dec-exam.go, lines 52-70): parse the WAV header; reject the stream
before any other step when its bits-per-sample is not `SampleBitDepth`
(16); otherwise overwrite `SampleRate` and `NumChannels` with the parsed
values and construct the encoder — whose `NewEncoder` runs
`populateEncConfig` on the same, pointer-shared configuration record.
An `.error` result means the Go function returned before creating an
encoder session and before writing any output; the encode loop itself
drives the opaque engine and is not modelled. -/
def EncodeFromWavConfig (c : EncoderConfig) (wavStream : List Nat) :
    Except EncodeFromWavError EncoderConfig :=
  match ParseWavHeader wavStream with
  | .error e => .error (.parseFailed e)
  | .ok (_, sr, nc, bps) =>
    if bps ≠ SampleBitDepth then .error (.unsupportedBitsPerSample bps)
    else .ok (populateEncConfig
      { c with SampleRate := (sr : Int), NumChannels := (nc : Int) })

/-- The bit-depth mapping in the decoder's `getFormat` (decoder source,
`switch cEnc`): the mpg123 encoding codes accepted on the decode path and
the bit depth each one is recorded as; any other code is rejected. -/
inductive Mpg123Encoding
  | unsigned8
  | signed16
  | signed24
  | signed32
  | other
  deriving DecidableEq, Repr

/-- `Decoder.getFormat`'s `switch` on the discovered encoding: `some`
bit depth for the four supported codes, `none` (an "unsupported
encoding" error) otherwise. -/
def getFormatBitDepth : Mpg123Encoding → Option Nat
  | .unsigned8 => some 8
  | .signed16 => some 16
  | .signed24 => some 24
  | .signed32 => some 32
  | .other => none

theorem bytesPerSample_eq (c : Nat) : bytesPerSample c = c * 2 := by
  simp only [bytesPerSample, SampleBitDepth]
  omega

theorem bytesPerSample_pos (c : Nat) (hc : 1 ≤ c) : 0 < bytesPerSample c := by
  rw [bytesPerSample_eq]; omega

/-- On a chunk that passes both checks, `Encode` aligns the carry-over plus
the chunk. -/
theorem Encode_ok (c : Nat) (remainData input : List Nat) (outCap : Nat)
    (hin : input ≠ [])
    (hout : ¬ outCap < EstimateOutBufBytes c input.length) :
    Encode c remainData input outCap =
      (.ok ((remainData ++ input).take
          ((remainData ++ input).length -
            (remainData ++ input).length % bytesPerSample c)),
        (remainData ++ input).drop
          ((remainData ++ input).length -
            (remainData ++ input).length % bytesPerSample c)) := by
  have hlen : input.length ≠ 0 := by simpa using hin
  simp [Encode, hlen, hout]

theorem readExact_append (n : Nat) (l rest : List Nat) (h : l.length = n) :
    readExact n (l ++ rest) = some (l, rest) := by
  subst h
  simp [readExact, List.take_left, List.drop_left]

theorem readExact_eq_some {n : Nat} {s a b : List Nat}
    (h : readExact n s = some (a, b)) :
    n ≤ s.length ∧ a = s.take n ∧ b = s.drop n := by
  by_cases hle : n ≤ s.length
  · simp only [readExact, if_pos hle, Option.some.injEq, Prod.mk.injEq] at h
    exact ⟨hle, h.1.symm, h.2.symm⟩
  · simp [readExact, hle] at h

theorem readLE16_le16 (n : Nat) : readLE16 (le16 n) = n % 65536 := by
  simp only [readLE16, le16, List.getD_cons_zero, List.getD_cons_succ]
  omega

theorem readLE16_le16_append (n : Nat) (rest : List Nat) :
    readLE16 (le16 n ++ rest) = n % 65536 := by
  simp only [readLE16, le16, List.cons_append, List.nil_append,
    List.getD_cons_zero, List.getD_cons_succ]
  omega

theorem readLE32_le32 (n : Nat) : readLE32 (le32 n) = n % 4294967296 := by
  simp only [readLE32, le32, List.getD_cons_zero, List.getD_cons_succ]
  omega

theorem readLE32_le32_append (n : Nat) (rest : List Nat) :
    readLE32 (le32 n ++ rest) = n % 4294967296 := by
  simp only [readLE32, le32, List.cons_append, List.nil_append,
    List.getD_cons_zero, List.getD_cons_succ]
  omega

theorem le16_length (n : Nat) : (le16 n).length = 2 := rfl

theorem le32_length (n : Nat) : (le32 n).length = 4 := rfl

/-- One-step unfolding of the chunk loop at positive fuel. -/
theorem parseChunks_succ (fuel : Nat) (fm : Bool) (nc sr bps : Nat)
    (s : List Nat) :
    parseChunks (fuel + 1) fm nc sr bps s =
      match readExact 8 s with
      | none => .error .truncatedChunkHeader
      | some (hdr, rest) =>
        let chunkID := hdr.take 4
        let chunkSize := readLE32 (hdr.drop 4)
        if chunkID = fmtTag then
          if chunkSize < 16 then .error .invalidFmtSize
          else
            match readExact chunkSize rest with
            | none => .error .truncatedFmtChunk
            | some (fmtData, rest2) =>
              let audioFormat := readLE16 fmtData
              let nc2 := readLE16 (fmtData.drop 2)
              let sr2 := readLE32 (fmtData.drop 4)
              let bps2 := readLE16 (fmtData.drop 14)
              if audioFormat ≠ 1 then .error .unsupportedFormat
              else parseChunks fuel true nc2 sr2 bps2 rest2
        else if chunkID = dataTag then
          if fm then .ok (chunkSize, sr, nc, bps)
          else .error .dataBeforeFmt
        else
          match readExact chunkSize rest with
          | none => .error .truncatedSkippedChunk
          | some (_, rest2) => parseChunks fuel fm nc sr bps rest2 := rfl

/-- The chunk loop consumes at least 8 bytes per iteration, so its result
does not depend on the fuel as long as the fuel exceeds the stream
length. -/
theorem parseChunks_fuel_irrel (f1 f2 : Nat) (fm : Bool) (nc sr bps : Nat)
    (s : List Nat) (h1 : s.length < f1) (h2 : s.length < f2) :
    parseChunks f1 fm nc sr bps s = parseChunks f2 fm nc sr bps s := by
  induction f1 generalizing f2 fm nc sr bps s with
  | zero => omega
  | succ f1 ih =>
    obtain ⟨f2, rfl⟩ : ∃ k, f2 = k + 1 := ⟨f2 - 1, by omega⟩
    rw [parseChunks_succ, parseChunks_succ]
    cases hre : readExact 8 s with
    | none => rfl
    | some p =>
      obtain ⟨hdr, rest⟩ := p
      obtain ⟨hle8, -, hrest⟩ := readExact_eq_some hre
      have hrestlen : rest.length = s.length - 8 := by
        rw [hrest, List.length_drop]
      simp only
      by_cases hfmt : hdr.take 4 = fmtTag
      · simp only [if_pos hfmt]
        by_cases hsz : readLE32 (hdr.drop 4) < 16
        · simp only [if_pos hsz]
        · simp only [if_neg hsz]
          cases hre2 : readExact (readLE32 (hdr.drop 4)) rest with
          | none => rfl
          | some q =>
            obtain ⟨fmtData, rest2⟩ := q
            obtain ⟨-, -, hrest2⟩ := readExact_eq_some hre2
            have hlen2 : rest2.length ≤ rest.length := by
              rw [hrest2]; simp [List.length_drop]
            simp only
            by_cases haf : readLE16 fmtData ≠ 1
            · simp only [if_pos haf]
            · simp only [if_neg haf]
              exact ih _ _ _ _ _ _ (by omega) (by omega)
      · simp only [if_neg hfmt]
        by_cases hdata : hdr.take 4 = dataTag
        · simp only [if_pos hdata]
        · simp only [if_neg hdata]
          cases hre2 : readExact (readLE32 (hdr.drop 4)) rest with
          | none => rfl
          | some q =>
            obtain ⟨skipped, rest2⟩ := q
            obtain ⟨-, -, hrest2⟩ := readExact_eq_some hre2
            have hlen2 : rest2.length ≤ rest.length := by
              rw [hrest2]; simp [List.length_drop]
            simp only
            exact ih _ _ _ _ _ _ (by omega) (by omega)

/-- With fuel exceeding the stream length the chunk loop never runs out
of fuel: every iteration consumes at least the 8-byte chunk header. -/
theorem parseChunks_ne_fuelExhausted (fuel : Nat) (fm : Bool)
    (nc sr bps : Nat) (s : List Nat) (h : s.length < fuel) :
    parseChunks fuel fm nc sr bps s ≠ .error .fuelExhausted := by
  induction fuel generalizing fm nc sr bps s with
  | zero => omega
  | succ fuel ih =>
    rw [parseChunks_succ]
    cases hre : readExact 8 s with
    | none => simp
    | some p =>
      obtain ⟨hdr, rest⟩ := p
      obtain ⟨hle8, -, hrest⟩ := readExact_eq_some hre
      have hrestlen : rest.length = s.length - 8 := by
        rw [hrest, List.length_drop]
      simp only
      by_cases hfmt : hdr.take 4 = fmtTag
      · simp only [if_pos hfmt]
        by_cases hsz : readLE32 (hdr.drop 4) < 16
        · simp [hsz]
        · simp only [if_neg hsz]
          cases hre2 : readExact (readLE32 (hdr.drop 4)) rest with
          | none => simp
          | some q =>
            obtain ⟨fmtData, rest2⟩ := q
            obtain ⟨-, -, hrest2⟩ := readExact_eq_some hre2
            have hlen2 : rest2.length ≤ rest.length := by
              rw [hrest2]; simp [List.length_drop]
            simp only
            by_cases haf : readLE16 fmtData ≠ 1
            · simp [haf]
            · simp only [if_neg haf]
              exact ih _ _ _ _ _ (by omega)
      · simp only [if_neg hfmt]
        by_cases hdata : hdr.take 4 = dataTag
        · simp only [if_pos hdata]
          cases fm <;> simp
        · simp only [if_neg hdata]
          cases hre2 : readExact (readLE32 (hdr.drop 4)) rest with
          | none => simp
          | some q =>
            obtain ⟨skipped, rest2⟩ := q
            obtain ⟨-, -, hrest2⟩ := readExact_eq_some hre2
            have hlen2 : rest2.length ≤ rest.length := by
              rw [hrest2]; simp [List.length_drop]
            simp only
            exact ih _ _ _ _ _ (by omega)

/-- A stream opening with a valid RIFF/WAVE prologue hands the remainder
to the chunk loop. -/
theorem parseWavHeader_prologue (mid : List Nat) (hmid : mid.length = 4)
    (rest : List Nat) :
    ParseWavHeader (riffTag ++ (mid ++ (waveTag ++ rest))) =
      parseChunks (rest.length + 1) false 0 0 0 rest := by
  have hassoc : riffTag ++ (mid ++ (waveTag ++ rest)) =
      ((riffTag ++ mid) ++ waveTag) ++ rest := by
    simp [List.append_assoc]
  have hlen : ((riffTag ++ mid) ++ waveTag).length = 12 := by
    simp [riffTag, waveTag, hmid]
  have htake : ((riffTag ++ mid) ++ waveTag).take 4 = riffTag := by
    rw [List.append_assoc]
    exact List.take_left' (by simp [riffTag])
  have hdrop : ((riffTag ++ mid) ++ waveTag).drop 8 = waveTag :=
    List.drop_left' (by simp [riffTag, hmid])
  rw [hassoc]
  simp only [ParseWavHeader, readExact_append 12 _ rest hlen]
  rw [if_neg (by push_neg; exact ⟨htake, hdrop⟩)]

/-- The chunk loop on a complete, valid `fmt ` chunk records its fields
and continues on the remainder. -/
theorem parseChunks_fmt_step (fuel : Nat) (fm : Bool) (nc sr bps sz : Nat)
    (hsz16 : 16 ≤ sz) (hsz : sz < 4294967296) (fmtData rest : List Nat)
    (hflen : fmtData.length = sz) (hfmt1 : readLE16 fmtData = 1) :
    parseChunks (fuel + 1) fm nc sr bps
        (fmtTag ++ (le32 sz ++ (fmtData ++ rest))) =
      parseChunks fuel true (readLE16 (fmtData.drop 2))
        (readLE32 (fmtData.drop 4)) (readLE16 (fmtData.drop 14)) rest := by
  have hassoc : fmtTag ++ (le32 sz ++ (fmtData ++ rest)) =
      (fmtTag ++ le32 sz) ++ (fmtData ++ rest) := by
    simp [List.append_assoc]
  have hhdr : (fmtTag ++ le32 sz).length = 8 := by simp [fmtTag, le32]
  have htake : (fmtTag ++ le32 sz).take 4 = fmtTag :=
    List.take_left' (by simp [fmtTag])
  have hdrop : (fmtTag ++ le32 sz).drop 4 = le32 sz :=
    List.drop_left' (by simp [fmtTag])
  have hszmod : readLE32 (le32 sz) = sz := by
    rw [readLE32_le32]
    exact Nat.mod_eq_of_lt hsz
  have hlt : ¬ sz < 16 := by omega
  rw [hassoc, parseChunks_succ, readExact_append 8 _ _ hhdr]
  simp only [htake, hdrop, hszmod]
  simp only [hlt, if_true, if_false, eq_self_iff_true,
    readExact_append sz _ _ hflen]
  simp [hfmt1]

/-- The chunk loop stops at a `data` chunk once a `fmt ` chunk has been
seen, returning the declared payload size and the recorded format. -/
theorem parseChunks_data_step (fuel : Nat) (nc sr bps sz : Nat)
    (hsz : sz < 4294967296) (rest : List Nat) :
    parseChunks (fuel + 1) true nc sr bps (dataTag ++ (le32 sz ++ rest)) =
      .ok (sz, sr, nc, bps) := by
  have hassoc : dataTag ++ (le32 sz ++ rest) =
      (dataTag ++ le32 sz) ++ rest := by
    simp [List.append_assoc]
  have hhdr : (dataTag ++ le32 sz).length = 8 := by simp [dataTag, le32]
  have htake : (dataTag ++ le32 sz).take 4 = dataTag :=
    List.take_left' (by simp [dataTag])
  have hdrop : (dataTag ++ le32 sz).drop 4 = le32 sz :=
    List.drop_left' (by simp [dataTag])
  have hszmod : readLE32 (le32 sz) = sz := by
    rw [readLE32_le32]
    exact Nat.mod_eq_of_lt hsz
  have hne : dataTag ≠ fmtTag := by decide
  rw [hassoc, parseChunks_succ, readExact_append 8 _ _ hhdr]
  simp only [htake, hdrop, hszmod]
  simp [hne]

/-- The chunk loop discards a complete chunk whose tag is neither
`"fmt "` nor `"data"`, consuming exactly its declared length. -/
theorem parseChunks_skip_step (fuel : Nat) (fm : Bool) (nc sr bps : Nat)
    (tag : List Nat) (htag : tag.length = 4) (ht1 : tag ≠ fmtTag)
    (ht2 : tag ≠ dataTag) (sz : Nat) (hsz : sz < 4294967296)
    (payload rest : List Nat) (hplen : payload.length = sz) :
    parseChunks (fuel + 1) fm nc sr bps
        (tag ++ (le32 sz ++ (payload ++ rest))) =
      parseChunks fuel fm nc sr bps rest := by
  have hassoc : tag ++ (le32 sz ++ (payload ++ rest)) =
      (tag ++ le32 sz) ++ (payload ++ rest) := by
    simp [List.append_assoc]
  have hhdr : (tag ++ le32 sz).length = 8 := by simp [le32, htag]
  have htake : (tag ++ le32 sz).take 4 = tag := List.take_left' htag
  have hdrop : (tag ++ le32 sz).drop 4 = le32 sz := List.drop_left' htag
  have hszmod : readLE32 (le32 sz) = sz := by
    rw [readLE32_le32]
    exact Nat.mod_eq_of_lt hsz
  rw [hassoc, parseChunks_succ, readExact_append 8 _ _ hhdr]
  simp only [htake, hdrop, hszmod]
  simp only [ht1, ht2, if_false, readExact_append sz _ _ hplen]

/-- C2: `ParseWavHeader` applied to the 44 bytes of
`GenerateWavHeader pcmSize sampleRate numChannels bitsPerSample` returns
exactly `(pcmSize, sampleRate, numChannels, bitsPerSample)` with no
error, whenever the channel count and bit depth fit their unsigned
16-bit fields and the sample rate and payload size fit their unsigned
32-bit fields. -/
theorem parseWavHeader_generateWavHeader (p sr nc bps : Nat)
    (hp : p < 4294967296) (hsr : sr < 4294967296)
    (hnc : nc < 65536) (hbps : bps < 65536) :
    ParseWavHeader (GenerateWavHeader p sr nc bps) = .ok (p, sr, nc, bps) := by
  obtain ⟨fd, hfd⟩ : ∃ fd,
      le16 1 ++ (le16 nc ++ (le32 sr ++ (le32 (sr * nc * bps / 8) ++
        (le16 (nc * bps / 8) ++ le16 bps)))) = fd := ⟨_, rfl⟩
  have hshape : GenerateWavHeader p sr nc bps =
      riffTag ++ (le32 (36 + p) ++ (waveTag ++
        (fmtTag ++ (le32 16 ++ (fd ++ (dataTag ++ (le32 p ++ []))))))) := by
    rw [← hfd]
    simp [GenerateWavHeader, List.append_assoc]
  have hfdlen : fd.length = 16 := by
    rw [← hfd]; simp [le16, le32]
  have hfd1 : readLE16 fd = 1 := by
    rw [← hfd, readLE16_le16_append]
  have h2 : readLE16 (fd.drop 2) = nc := by
    rw [← hfd, List.drop_left' (le16_length 1), readLE16_le16_append]
    exact Nat.mod_eq_of_lt hnc
  have h4 : readLE32 (fd.drop 4) = sr := by
    have hre : fd = (le16 1 ++ le16 nc) ++ (le32 sr ++
        (le32 (sr * nc * bps / 8) ++ (le16 (nc * bps / 8) ++ le16 bps))) := by
      rw [← hfd]; simp [List.append_assoc]
    rw [hre, List.drop_left' (by simp [le16]), readLE32_le32_append]
    exact Nat.mod_eq_of_lt hsr
  have h14 : readLE16 (fd.drop 14) = bps := by
    have hre : fd = (le16 1 ++ (le16 nc ++ (le32 sr ++
        (le32 (sr * nc * bps / 8) ++ le16 (nc * bps / 8))))) ++ le16 bps := by
      rw [← hfd]; simp [List.append_assoc]
    rw [hre, List.drop_left' (by simp [le16, le32]), readLE16_le16]
    exact Nat.mod_eq_of_lt hbps
  have hrlen : (fmtTag ++ (le32 16 ++ (fd ++ (dataTag ++
      (le32 p ++ []))))).length = 32 := by
    simp [fmtTag, dataTag, le32, hfdlen]
  rw [hshape, parseWavHeader_prologue (le32 (36 + p)) (le32_length _) _,
    hrlen, parseChunks_fmt_step 32 false 0 0 0 16 (by omega) (by omega)
      fd _ hfdlen hfd1, h2, h4, h14]
  have h32 : (32 : Nat) = 31 + 1 := by omega
  rw [h32, parseChunks_data_step 31 nc sr bps p hp ([] : List Nat)]

/-- Witness for C2 at `44100/2/16/88200`. -/
theorem parseWavHeader_generateWavHeader_witness :
    ParseWavHeader (GenerateWavHeader 88200 44100 2 16) =
      .ok (88200, 44100, 2, 16) :=
  parseWavHeader_generateWavHeader 88200 44100 2 16
    (by omega) (by omega) (by omega) (by omega)

/-- C4: Inserting one extra complete chunk whose tag is neither `"fmt "`
nor `"data"` — a 4-byte tag, a declared length, and exactly that many
payload bytes — between the `fmt ` and `data` chunks of a WAV stream
leaves the result of `ParseWavHeader` unchanged (whatever follows the
insertion point). -/
theorem parseWavHeader_skips_unknown_chunk
    (mid : List Nat) (hmid : mid.length = 4)
    (sz : Nat) (hsz16 : 16 ≤ sz) (hsz : sz < 4294967296)
    (fmtData : List Nat) (hflen : fmtData.length = sz)
    (hfmt1 : readLE16 fmtData = 1)
    (tag : List Nat) (htag : tag.length = 4)
    (ht1 : tag ≠ fmtTag) (ht2 : tag ≠ dataTag)
    (jsz : Nat) (hjsz : jsz < 4294967296)
    (payload : List Nat) (hplen : payload.length = jsz)
    (rest : List Nat) :
    ParseWavHeader (riffTag ++ (mid ++ (waveTag ++ (fmtTag ++ (le32 sz ++
        (fmtData ++ (tag ++ (le32 jsz ++ (payload ++ rest))))))))) =
      ParseWavHeader (riffTag ++ (mid ++ (waveTag ++ (fmtTag ++ (le32 sz ++
        (fmtData ++ rest)))))) := by
  have hL : ParseWavHeader (riffTag ++ (mid ++ (waveTag ++ (fmtTag ++
      (le32 sz ++ (fmtData ++ (tag ++ (le32 jsz ++ (payload ++ rest))))))))) =
      parseChunks (rest.length + 1) true (readLE16 (fmtData.drop 2))
        (readLE32 (fmtData.drop 4)) (readLE16 (fmtData.drop 14)) rest := by
    rw [parseWavHeader_prologue mid hmid,
      parseChunks_fmt_step _ false 0 0 0 sz hsz16 hsz fmtData _ hflen hfmt1,
      parseChunks_fuel_irrel
        ((fmtTag ++ (le32 sz ++ (fmtData ++ (tag ++ (le32 jsz ++
          (payload ++ rest)))))).length)
        ((tag ++ (le32 jsz ++ (payload ++ rest))).length + 1)
        true (readLE16 (fmtData.drop 2)) (readLE32 (fmtData.drop 4))
        (readLE16 (fmtData.drop 14))
        (tag ++ (le32 jsz ++ (payload ++ rest)))
        (by simp [fmtTag, le32, htag, hplen, hflen]; omega) (by omega),
      parseChunks_skip_step ((tag ++ (le32 jsz ++ (payload ++ rest))).length)
        true (readLE16 (fmtData.drop 2)) (readLE32 (fmtData.drop 4))
        (readLE16 (fmtData.drop 14)) tag htag ht1 ht2 jsz hjsz payload rest
        hplen,
      parseChunks_fuel_irrel ((tag ++ (le32 jsz ++ (payload ++ rest))).length)
        (rest.length + 1) true (readLE16 (fmtData.drop 2))
        (readLE32 (fmtData.drop 4)) (readLE16 (fmtData.drop 14)) rest
        (by simp [le32, htag, hplen]; omega) (by omega)]
  have hR : ParseWavHeader (riffTag ++ (mid ++ (waveTag ++ (fmtTag ++
      (le32 sz ++ (fmtData ++ rest)))))) =
      parseChunks (rest.length + 1) true (readLE16 (fmtData.drop 2))
        (readLE32 (fmtData.drop 4)) (readLE16 (fmtData.drop 14)) rest := by
    rw [parseWavHeader_prologue mid hmid,
      parseChunks_fmt_step _ false 0 0 0 sz hsz16 hsz fmtData _ hflen hfmt1,
      parseChunks_fuel_irrel
        ((fmtTag ++ (le32 sz ++ (fmtData ++ rest))).length)
        (rest.length + 1) true (readLE16 (fmtData.drop 2))
        (readLE32 (fmtData.drop 4)) (readLE16 (fmtData.drop 14)) rest
        (by simp [fmtTag, le32, hflen]; omega) (by omega)]
  rw [hL, hR]

/-- Witness for C4: a 10-byte `"JUNK"` chunk inserted between `fmt ` and
what follows it. -/
theorem parseWavHeader_skips_unknown_chunk_witness :
    ParseWavHeader (riffTag ++ ([0, 0, 0, 0] ++ (waveTag ++ (fmtTag ++
        (le32 16 ++ (([1, 0] ++ List.replicate 14 0) ++
          ([74, 85, 78, 75] ++ (le32 10 ++ (List.replicate 10 7 ++
            [1, 2, 3]))))))))) =
      ParseWavHeader (riffTag ++ ([0, 0, 0, 0] ++ (waveTag ++ (fmtTag ++
        (le32 16 ++ (([1, 0] ++ List.replicate 14 0) ++ [1, 2, 3])))))) :=
  parseWavHeader_skips_unknown_chunk [0, 0, 0, 0] (by decide)
    16 (by decide) (by decide)
    ([1, 0] ++ List.replicate 14 0) (by decide) (by decide)
    [74, 85, 78, 75] (by decide) (by decide) (by decide)
    10 (by decide) (List.replicate 10 7) (by decide) [1, 2, 3]

/-- One-step unfolding of the spec-side well-formedness scan at positive
fuel. -/
theorem specChunksOk_succ (fuel : Nat) (fm : Bool) (s : List Nat) :
    specChunksOk (fuel + 1) fm s =
      match readExact 8 s with
      | none => false
      | some (hdr, rest) =>
        let chunkID := hdr.take 4
        let chunkSize := readLE32 (hdr.drop 4)
        if chunkID = fmtTag then
          decide (16 ≤ chunkSize) &&
            match readExact chunkSize rest with
            | none => false
            | some (fmtData, rest2) =>
              (readLE16 fmtData == 1) && specChunksOk fuel true rest2
        else if chunkID = dataTag then fm
        else
          match readExact chunkSize rest with
          | none => false
          | some (_, rest2) => specChunksOk fuel fm rest2 := rfl

/-- The chunk loop succeeds exactly on the streams the spec-side
well-formedness scan accepts. -/
theorem parseChunks_isOk_spec (fuel : Nat) (fm : Bool) (nc sr bps : Nat)
    (s : List Nat) :
    (parseChunks fuel fm nc sr bps s).isOk = specChunksOk fuel fm s := by
  induction fuel generalizing fm nc sr bps s with
  | zero => simp [parseChunks, specChunksOk, Except.isOk, Except.toBool]
  | succ fuel ih =>
    rw [parseChunks_succ, specChunksOk_succ]
    cases hre : readExact 8 s with
    | none => simp [Except.isOk, Except.toBool]
    | some p =>
      obtain ⟨hdr, rest⟩ := p
      simp only
      by_cases hfmt : hdr.take 4 = fmtTag
      · simp only [if_pos hfmt]
        by_cases hsz : readLE32 (hdr.drop 4) < 16
        · have h16 : ¬ 16 ≤ readLE32 (hdr.drop 4) := by omega
          simp [hsz, h16, Except.isOk, Except.toBool]
        · have h16 : 16 ≤ readLE32 (hdr.drop 4) := by omega
          simp only [if_neg hsz]
          cases hre2 : readExact (readLE32 (hdr.drop 4)) rest with
          | none => simp [Except.isOk, Except.toBool, h16]
          | some q =>
            obtain ⟨fmtData, rest2⟩ := q
            simp only
            by_cases haf : readLE16 fmtData = 1
            · simp [haf, ih, h16]
            · simp [haf, Except.isOk, Except.toBool, h16]
      · simp only [if_neg hfmt]
        by_cases hdata : hdr.take 4 = dataTag
        · simp only [if_pos hdata]
          cases fm <;> simp [Except.isOk, Except.toBool]
        · simp only [if_neg hdata]
          cases hre2 : readExact (readLE32 (hdr.drop 4)) rest with
          | none => simp [Except.isOk, Except.toBool]
          | some q =>
            obtain ⟨skipped, rest2⟩ := q
            simp only
            exact ih _ _ _ _ _

/-- C8: `ParseWavHeader` succeeds exactly on the streams the claim calls
well-formed (`specWavWellFormed`, written from the claim's enumeration of
malformations), and the only other conceivable failure — the embedding's
fuel running out — never occurs, so every failure is one of the
enumerated kinds. -/
theorem parseWavHeader_fails_iff_malformed (s : List Nat) :
    (ParseWavHeader s).isOk = specWavWellFormed s
    ∧ ∀ e, ParseWavHeader s = .error e → e ≠ .fuelExhausted := by
  constructor
  · simp only [ParseWavHeader, specWavWellFormed]
    cases hre : readExact 12 s with
    | none => simp [Except.isOk, Except.toBool]
    | some p =>
      obtain ⟨riffHeader, rest⟩ := p
      simp only
      by_cases h1 : riffHeader.take 4 = riffTag
      · by_cases h2 : riffHeader.drop 8 = waveTag
        · simp [h1, h2, parseChunks_isOk_spec]
        · simp [h1, h2, Except.isOk, Except.toBool]
      · simp [h1, Except.isOk, Except.toBool]
  · intro e he
    simp only [ParseWavHeader] at he
    cases hre : readExact 12 s with
    | none =>
      rw [hre] at he
      simp only [Except.error.injEq] at he
      subst he
      decide
    | some p =>
      obtain ⟨riffHeader, rest⟩ := p
      rw [hre] at he
      simp only at he
      by_cases hriff : riffHeader.take 4 ≠ riffTag ∨
          riffHeader.drop 8 ≠ waveTag
      · rw [if_pos hriff] at he
        simp only [Except.error.injEq] at he
        subst he
        decide
      · rw [if_neg hriff] at he
        intro heq
        subst heq
        exact parseChunks_ne_fuelExhausted (rest.length + 1) false 0 0 0
          rest (by omega) he

/-- Witness for C8 at the empty stream. -/
theorem parseWavHeader_fails_iff_malformed_witness :
    ((ParseWavHeader []).isOk = specWavWellFormed [])
    ∧ ParseError.truncatedRiff ≠ ParseError.fuelExhausted :=
  ⟨(parseWavHeader_fails_iff_malformed []).1,
    (parseWavHeader_fails_iff_malformed []).2 .truncatedRiff rfl⟩

theorem decodeLoop_total (outputs : List (List Nat)) :
    ∀ f t, (decodeLoop outputs f t).2 = t + (outputs.map List.length).sum := by
  induction outputs with
  | nil => intro f t; simp [decodeLoop]
  | cons out rest ih =>
    intro f t
    by_cases h0 : 0 < out.length
    · simp only [decodeLoop, if_pos h0, ih, List.map_cons, List.sum_cons]
      omega
    · simp only [decodeLoop, if_neg h0, ih, List.map_cons, List.sum_cons]
      omega

theorem decodeLoop_all_empty (outputs : List (List Nat))
    (h : ∀ out ∈ outputs, out = []) :
    ∀ f t, decodeLoop outputs f t = (f, t) := by
  induction outputs with
  | nil => intro f t; simp [decodeLoop]
  | cons out rest ih =>
    intro f t
    have hout : out = [] := h out (by simp)
    have h0 : ¬ 0 < out.length := by simp [hout]
    rw [decodeLoop, if_neg h0]
    exact ih (fun o ho => h o (by simp [ho])) f t

/-- C3: When every chunk the engine returns is empty, `DecodeToWav` fails
with the no-audio-decoded error and the destination still holds nothing —
neither placeholder header nor payload.  When some chunk is nonempty it
succeeds, returning total payload bytes plus 44 as the byte count and
total payload bytes divided by `numChannels * bitsPerSample / 8` as the
sample count. -/
theorem decodeToWav_results (outputs : List (List Nat)) (sr nc bps : Nat) :
    ((∀ out ∈ outputs, out = []) →
      DecodeToWav outputs sr nc bps = (⟨[], 0⟩, .error .noAudioDecoded))
    ∧ ((∃ out ∈ outputs, out ≠ []) →
      (DecodeToWav outputs sr nc bps).2 =
        .ok ((outputs.map List.length).sum + 44,
          (outputs.map List.length).sum / (nc * bps / 8), sr)) := by
  constructor
  · intro h
    have hloop := decodeLoop_all_empty outputs h ⟨[], 0⟩ 0
    simp [DecodeToWav, hloop]
  · rintro ⟨out, hmem, hne⟩
    have htot := decodeLoop_total outputs ⟨[], 0⟩ 0
    have hpos : 0 < (outputs.map List.length).sum := by
      have hlen : 0 < out.length := by
        cases out with
        | nil => exact absurd rfl hne
        | cons a l => simp
      have hmemlen : out.length ∈ outputs.map List.length :=
        List.mem_map_of_mem List.length hmem
      have hle : out.length ≤ (outputs.map List.length).sum :=
        List.single_le_sum (fun x _ => Nat.zero_le x) _ hmemlen
      omega
    have hcond : ¬ (outputs.map List.length).sum = 0 := by omega
    simp [DecodeToWav, htot, hcond, WavHeaderSize]

/-- Witness for C3: one failing run (all chunks empty) and one succeeding
run (a single 5-byte chunk at 44100 Hz stereo 16-bit). -/
theorem decodeToWav_results_witness :
    DecodeToWav [[], []] 44100 2 16 = (⟨[], 0⟩, .error .noAudioDecoded)
    ∧ (DecodeToWav [[5]] 44100 2 16).2 =
        .ok (([[5]].map List.length).sum + 44,
          ([[5]].map List.length).sum / (2 * 16 / 8), 44100) :=
  ⟨(decodeToWav_results [[], []] 44100 2 16).1 (by decide),
    (decodeToWav_results [[5]] 44100 2 16).2 ⟨[5], by simp, by simp⟩⟩

/-- C9 counterexample: a caller configuration with `Bitrate = 0` does
not keep its `Bitrate` across `EncodeFromWav` — `NewEncoder`'s
`populateEncConfig`, operating on the same pointer-shared record, resets
it to 128 — so fields other than `SampleRate`/`NumChannels` are not
always left unchanged. -/
theorem encodeFromWav_changes_bitrate :
    EncodeFromWavConfig ⟨0, 0, 0, 2, 0, 0⟩ (GenerateWavHeader 4 44100 2 16) =
      .ok ⟨44100, 2, 128, 2, 0, 0⟩
    ∧ (⟨0, 0, 0, 2, 0, 0⟩ : EncoderConfig).Bitrate ≠
        (⟨44100, 2, 128, 2, 0, 0⟩ : EncoderConfig).Bitrate := by
  constructor
  · rfl
  · decide

/-- C9 (amended): `EncodeFromWav` overwrites exactly `SampleRate` and
`NumChannels` with the values parsed from the WAV header and leaves
`Bitrate`, `Quality`, `VbrMode` and `MpegMode` unchanged, provided the
parsed sample rate and channel count are nonzero, the caller's bitrate is
nonzero, and the caller's quality lies in `0..9`; outside those ranges
`populateEncConfig` (run by `NewEncoder` on the same record) substitutes
defaults. -/
theorem encodeFromWav_config_effect (c : EncoderConfig) (s : List Nat)
    (p sr nc bps : Nat) (hparse : ParseWavHeader s = .ok (p, sr, nc, bps))
    (hbps : bps = 16) (hsr : sr ≠ 0) (hnc : nc ≠ 0)
    (hbr : c.Bitrate ≠ 0) (hq : 0 ≤ c.Quality ∧ c.Quality ≤ 9) :
    EncodeFromWavConfig c s =
      .ok { c with SampleRate := (sr : Int), NumChannels := (nc : Int) } := by
  have hqq : ¬((c.Quality < 0) ∨ (9 < c.Quality)) := by omega
  subst hbps
  simp only [EncodeFromWavConfig, hparse]
  rw [if_neg (by simp [SampleBitDepth])]
  simp [populateEncConfig, Nat.cast_eq_zero, hsr, hnc, hbr, hqq]

/-- Witness for C9 (amended) at a generated 44100/2/16 header and a fully
valid caller configuration. -/
theorem encodeFromWav_config_effect_witness :
    EncodeFromWavConfig ⟨22050, 1, 192, 5, 0, 0⟩
        (GenerateWavHeader 4 44100 2 16) =
      .ok ⟨44100, 2, 192, 5, 0, 0⟩ :=
  encodeFromWav_config_effect ⟨22050, 1, 192, 5, 0, 0⟩
    (GenerateWavHeader 4 44100 2 16) 4 44100 2 16 rfl rfl
    (by decide) (by decide) (by decide) (by decide)

/-- C10: Whenever the parsed WAV header's bits-per-sample differs from
16, `EncodeFromWav` fails before creating an encoder session or writing
any output; yet the decoder's `getFormat` accepts bit depths 8, 24 and 32
on the decode path. -/
theorem encodeFromWav_rejects_non16 (c : EncoderConfig) (s : List Nat)
    (p sr nc bps : Nat) (hparse : ParseWavHeader s = .ok (p, sr, nc, bps))
    (hbps : bps ≠ 16) :
    EncodeFromWavConfig c s = .error (.unsupportedBitsPerSample bps)
    ∧ ∀ d ∈ [8, 24, 32], ∃ e, getFormatBitDepth e = some d := by
  constructor
  · simp only [EncodeFromWavConfig, hparse]
    rw [if_pos (by simp [SampleBitDepth, hbps])]
  · intro d hd
    simp only [List.mem_cons, List.not_mem_nil, or_false] at hd
    rcases hd with rfl | rfl | rfl
    · exact ⟨.unsigned8, rfl⟩
    · exact ⟨.signed24, rfl⟩
    · exact ⟨.signed32, rfl⟩

/-- Witness for C10 at a generated 8-bit header. -/
theorem encodeFromWav_rejects_non16_witness :
    EncodeFromWavConfig ⟨44100, 2, 128, 2, 0, 0⟩
        (GenerateWavHeader 4 44100 2 8) =
      .error (.unsupportedBitsPerSample 8)
    ∧ ∀ d ∈ [8, 24, 32], ∃ e, getFormatBitDepth e = some d :=
  encodeFromWav_rejects_non16 ⟨44100, 2, 128, 2, 0, 0⟩
    (GenerateWavHeader 4 44100 2 8) 4 44100 2 8 rfl (by decide)

/-- C5: For every channel count `c ≥ 1` and input length `n`,
`EstimateOutBufBytes` equals `floor(1.25 * (n / (c*2) + 1)) + 7200` (real
`1.25`, truncating integer division `n / (c*2)`), and the flush estimate
`EstimateOutBufBytes c 0` equals `7201`. -/
theorem estimateOutBufBytes_spec (c n : Nat) (hc : 1 ≤ c) :
    ((EstimateOutBufBytes c n : Int) =
      ⌊(1.25 : ℚ) * ((n / (c * 2) : Nat) + 1)⌋ + 7200)
    ∧ EstimateOutBufBytes c 0 = 7201 := by
  constructor
  · have hbs : bytesPerSample c = c * 2 := bytesPerSample_eq c
    obtain ⟨m, hm⟩ : ∃ m, n / (c * 2) = m := ⟨_, rfl⟩
    have hcast : (1.25 : ℚ) * ((m : ℚ) + 1) =
        (((5 * (m + 1) : Nat) : Int) : ℚ) / ((4 : Nat) : ℚ) := by
      push_cast
      ring
    rw [hm, hcast, Rat.floor_intCast_div_natCast]
    simp only [EstimateOutBufBytes, hbs, hm]
    push_cast
    omega
  · simp [EstimateOutBufBytes, Nat.zero_div]

/-- Witness for C5 at `c = 2`, `n = 2048`. -/
theorem estimateOutBufBytes_spec_witness :
    (1 ≤ 2) ∧ ((EstimateOutBufBytes 2 2048 : Int) =
      ⌊(1.25 : ℚ) * ((2048 / (2 * 2) : Nat) + 1)⌋ + 7200)
    ∧ EstimateOutBufBytes 2 0 = 7201 :=
  ⟨by decide, estimateOutBufBytes_spec 2 2048 (by decide)⟩

/-- C1: Over any sequence of `Encode` calls (each with nonempty input and a
sufficiently large output buffer), starting from any carry-over shorter than
one sample frame: the concatenation of the buffers handed to the engine
followed by the final carry-over equals the initial carry-over followed by
the concatenation of all the caller's chunks (no byte duplicated, dropped,
reordered or padded); the carry-over after every call is shorter than the
sample-frame width; and every buffer handed to the engine is a whole number
of sample frames. -/
theorem encode_alignment_invariant (c : Nat) (hc : 1 ≤ c)
    (carry : List Nat) (chunks : List (List Nat))
    (hcarry : carry.length < bytesPerSample c)
    (hne : ∀ ch ∈ chunks, ch ≠ []) :
    (runEncode c carry chunks).1.flatten ++ (runEncode c carry chunks).2 =
        carry ++ chunks.flatten
    ∧ (runEncode c carry chunks).2.length < bytesPerSample c
    ∧ ∀ fed ∈ (runEncode c carry chunks).1,
        fed.length % bytesPerSample c = 0 := by
  induction chunks generalizing carry with
  | nil =>
    refine ⟨?_, ?_, ?_⟩
    · simp [runEncode]
    · simpa [runEncode] using hcarry
    · simp [runEncode]
  | cons chunk rest ih =>
    have hw : 0 < bytesPerSample c := bytesPerSample_pos c hc
    have hchunk : chunk ≠ [] := hne chunk (by simp)
    have hrest : ∀ ch ∈ rest, ch ≠ [] := fun ch h => hne ch (by simp [h])
    obtain ⟨combined, hcomb⟩ : ∃ l, carry ++ chunk = l := ⟨_, rfl⟩
    obtain ⟨a, ha⟩ : ∃ a,
        combined.length - combined.length % bytesPerSample c = a := ⟨_, rfl⟩
    have hstep : runEncode c carry (chunk :: rest) =
        ((combined.take a) :: (runEncode c (combined.drop a) rest).1,
          (runEncode c (combined.drop a) rest).2) := by
      rw [runEncode,
        Encode_ok c carry chunk (EstimateOutBufBytes c chunk.length) hchunk
          (by omega), hcomb, ha]
    have hdroplen : (combined.drop a).length < bytesPerSample c := by
      have := Nat.mod_lt combined.length hw
      simp only [List.length_drop]
      omega
    obtain ⟨ihEq, ihLen, ihMod⟩ := ih (combined.drop a) hdroplen hrest
    refine ⟨?_, ?_, ?_⟩
    · rw [hstep]
      simp only [List.flatten_cons, List.append_assoc]
      rw [ihEq, ← List.append_assoc, List.take_append_drop, ← hcomb]
      simp [List.flatten_cons, List.append_assoc]
    · rw [hstep]
      exact ihLen
    · rw [hstep]
      intro fed hfed
      rcases List.mem_cons.mp hfed with h | h
      · subst h
        have halen : a ≤ combined.length := by
          rw [← ha]; exact Nat.sub_le _ _
        have hlen : (combined.take a).length = a := by
          rw [List.length_take]; exact Nat.min_eq_left halen
        rw [hlen, ← ha,
          Nat.sub_eq_of_eq_add
            (Nat.div_add_mod combined.length (bytesPerSample c)).symm,
          Nat.mul_mod_right]
      · exact ihMod fed h

/-- Witness for C1: two chunks of 3 bytes each on a stereo (frame width 4)
session: the engine receives one 4-byte frame and 2 bytes remain. -/
theorem encode_alignment_invariant_witness :
    ((1 : Nat) ≤ 2) ∧ (([] : List Nat).length < bytesPerSample 2)
    ∧ ((runEncode 2 [] [[1, 2, 3], [4, 5, 6]]).1.flatten ++
          (runEncode 2 [] [[1, 2, 3], [4, 5, 6]]).2 =
        [] ++ [[1, 2, 3], [4, 5, 6]].flatten
      ∧ (runEncode 2 [] [[1, 2, 3], [4, 5, 6]]).2.length < bytesPerSample 2
      ∧ ∀ fed ∈ (runEncode 2 [] [[1, 2, 3], [4, 5, 6]]).1,
          fed.length % bytesPerSample 2 = 0) :=
  ⟨by decide, by decide,
    encode_alignment_invariant 2 (by decide) [] [[1, 2, 3], [4, 5, 6]]
      (by decide) (by decide)⟩

/-- C6: When a call passes the non-empty-input and output-capacity checks
but the carry-over plus the new chunk is shorter than one sample frame,
`Encode` returns `.ok []` — zero bytes, no error, nothing handed to the
engine — and the new carry-over is the old carry-over followed by the
entire chunk. -/
theorem encode_short_input_buffers (c : Nat) (carry input : List Nat)
    (outCap : Nat) (hin : input ≠ [])
    (hout : ¬ outCap < EstimateOutBufBytes c input.length)
    (hshort : (carry ++ input).length < bytesPerSample c) :
    Encode c carry input outCap = (.ok [], carry ++ input) := by
  rw [Encode_ok c carry input outCap hin hout]
  have hmod : (carry ++ input).length % bytesPerSample c =
      (carry ++ input).length := Nat.mod_eq_of_lt hshort
  rw [hmod]
  simp

/-- Witness for C6: stereo session, empty carry-over, 3-byte chunk. -/
theorem encode_short_input_buffers_witness :
    ([5, 6, 7] ≠ ([] : List Nat))
    ∧ ¬ 9000 < EstimateOutBufBytes 2 [5, 6, 7].length
    ∧ ([] ++ [5, 6, 7] : List Nat).length < bytesPerSample 2
    ∧ Encode 2 [] [5, 6, 7] 9000 = (.ok [], [] ++ [5, 6, 7]) :=
  ⟨by decide, by decide, by decide,
    encode_short_input_buffers 2 [] [5, 6, 7] 9000 (by decide) (by decide)
      (by decide)⟩

/-- C7: `Encode` returns an error — leaving the carry-over untouched and
never reaching the engine — exactly when the input is empty (`emptyInput`)
or the output capacity is below `EstimateOutBufBytes` of the input length
(`outputTooSmall`); `Flush` returns `outputTooSmall` exactly when the
output capacity is below `EstimateOutBufBytes c 0`. -/
theorem encode_flush_error_conditions (c : Nat) (carry input : List Nat)
    (outCap flushCap : Nat) :
    ((Encode c carry input outCap).1 = .error .emptyInput ↔ input = [])
    ∧ ((Encode c carry input outCap).1 = .error .outputTooSmall ↔
        input ≠ [] ∧ outCap < EstimateOutBufBytes c input.length)
    ∧ (∀ e, (Encode c carry input outCap).1 = .error e →
        (Encode c carry input outCap).2 = carry)
    ∧ (Flush c flushCap = .error .outputTooSmall ↔
        flushCap < EstimateOutBufBytes c 0) := by
  refine ⟨?_, ?_, ?_, ?_⟩
  · constructor
    · intro h
      by_cases h0 : input.length = 0
      · exact List.length_eq_zero.mp h0
      · exfalso
        by_cases h1 : outCap < EstimateOutBufBytes c input.length <;>
          simp [Encode, h0, h1] at h
    · intro h
      subst h
      simp [Encode]
  · constructor
    · intro h
      by_cases h0 : input.length = 0
      · simp [Encode, h0] at h
      · by_cases h1 : outCap < EstimateOutBufBytes c input.length
        · exact ⟨fun hnil => h0 (by simp [hnil]), h1⟩
        · simp [Encode, h0, h1] at h
    · rintro ⟨hne, hcap⟩
      have h0 : input.length ≠ 0 := by simpa using hne
      simp [Encode, h0, hcap]
  · intro e he
    by_cases h0 : input.length = 0
    · simp [Encode, h0]
    · by_cases h1 : outCap < EstimateOutBufBytes c input.length
      · simp [Encode, h0, h1]
      · simp [Encode, h0, h1] at he
  · constructor
    · intro h
      by_cases h1 : flushCap < EstimateOutBufBytes c 0
      · exact h1
      · simp [Flush, h1] at h
    · intro h
      simp [Flush, h]

/-- Witness for C7: empty input yields `emptyInput`; a 1-byte output buffer
yields `outputTooSmall` on both `Encode` and `Flush`. -/
theorem encode_flush_error_conditions_witness :
    (Encode 2 [9] [] 9000).1 = .error .emptyInput
    ∧ (Encode 2 [9] [1, 2] 1).1 = .error .outputTooSmall
    ∧ (Encode 2 [9] [1, 2] 1).2 = [9]
    ∧ Flush 2 1 = .error .outputTooSmall :=
  ⟨(encode_flush_error_conditions 2 [9] [] 9000 1).1.mpr rfl,
    (encode_flush_error_conditions 2 [9] [1, 2] 1 1).2.1.mpr
      ⟨by decide, by decide⟩,
    (encode_flush_error_conditions 2 [9] [1, 2] 1 1).2.2.1 .outputTooSmall
      ((encode_flush_error_conditions 2 [9] [1, 2] 1 1).2.1.mpr
        ⟨by decide, by decide⟩),
    (encode_flush_error_conditions 2 [9] [] 9000 1).2.2.2.mpr (by decide)⟩

end Mp3
